import Mathlib

/-!
Shallow embedding of the Position Management & Strategy Evaluation Engine:
the live position state machine (`Trader.processCoin`, `Trader.executeDCA`,
`Trader.exitTrade`, `Trader.enterTrade`), the historical simulation engine
(`BacktestEngine.run`) and the genetic parameter search (`HyperOpt.optimize`).
Machine floating-point numbers are modelled as exact rationals; the JavaScript
`Math.random()` stream is modelled as an explicit function `ℕ → ℚ` threaded
with a counter; fallible calls return `Except` or are driven by explicit
success flags on the tick input.
-/

namespace BobTrader

/-- Trading configuration, from `ConfigManager.get("trading")` as read by
`Trader`: `dca_levels`, `max_dca_buys_per_24h`, `dca_multiplier`,
`pm_start_pct_no_dca`, `pm_start_pct_with_dca`, `trailing_gap_pct`. -/
structure TradingCfg where
  dcaLevels : List ℚ
  maxDcaBuys : ℕ
  dcaMultiplier : ℚ
  pmStartNoDca : ℚ
  pmStartWithDca : ℚ
  trailingGapPct : ℚ
deriving DecidableEq

/-- The per-symbol position record stored in `Trader.activeTrades`. -/
structure Position where
  amount : ℚ
  avgPrice : ℚ
  dcaCount : ℕ
  trailActive : Bool
  trailPeak : ℚ
  trailLine : ℚ
deriving DecidableEq

inductive Side where
  | buy
  | sell
deriving DecidableEq

/-- The `type` field written by `analytics.logTrade`. -/
inductive TradeKind where
  | entry
  | dca
  | trailingStop
  | strategySignal
deriving DecidableEq

/-- One `analytics.logTrade` record (symbol omitted: one symbol is modelled). -/
structure TradeEvent where
  side : Side
  tkind : TradeKind
  amount : ℚ
  price : ℚ
  time : ℚ
deriving DecidableEq

/-- Everything one `Trader.processCoin` call observes from the outside world:
the ticker price, the wall-clock time stamped on trade logs, the strategy's
buy/sell signal on the last candle, and whether each possible
`connector.createOrder` call succeeds (`false` models the call throwing). -/
structure TickInput where
  price : ℚ
  time : ℚ
  buySignal : Bool
  sellSignal : Bool
  entryOrderOk : Bool
  dcaOrderOk : Bool
  stratExitOrderOk : Bool
  trailExitOrderOk : Bool
deriving DecidableEq

/-- `this.dcaLevels[levelIndex] !== undefined ? this.dcaLevels[levelIndex]
: this.dcaLevels[this.dcaLevels.length - 1]` — clamp to the last level,
yielding `none` (JS `undefined`) when the level list is empty. -/
def nextLevel (cfg : TradingCfg) (count : ℕ) : Option ℚ :=
  match cfg.dcaLevels.get? count with
  | some l => some l
  | none => cfg.dcaLevels.getLast?

/-- The DCA guard of `processCoin`: negative P&L, lifetime DCA count below
`max_dca_buys_per_24h`, and P&L at or below the (clamped) next level.
A comparison with JS `undefined` is false, so an empty level list disables
the scale-in. -/
def dcaTriggered (cfg : TradingCfg) (count : ℕ) (pnl : ℚ) : Bool :=
  decide (pnl < 0) && decide (count < cfg.maxDcaBuys) &&
    (match nextLevel cfg count with
     | some l => decide (pnl ≤ l)
     | none => false)

/-- The position update of `Trader.executeDCA`: add `amount * dca_multiplier`
at `price` and recompute the average entry price from total cost. -/
def dcaFill (mult : ℚ) (p : Position) (price : ℚ) : Position :=
  let amount := p.amount * mult
  let totalCost := p.avgPrice * p.amount + price * amount
  let totalAmount := p.amount + amount
  { p with
      amount := totalAmount
      avgPrice := totalCost / totalAmount
      dcaCount := p.dcaCount + 1 }

/-- `((currentPrice - position.avgPrice) / position.avgPrice) * 100`,
computed once at the start of the tick against the pre-DCA average. -/
def pnlPct (p : Position) (price : ℚ) : ℚ := (price - p.avgPrice) / p.avgPrice * 100

/-- The trailing-stop block of `processCoin`: activate at `pm_start_pct_*`
(read against the post-DCA `dcaCount`), thereafter ratchet the peak and
raise the line only when the recomputed line is strictly higher. `pnl` is
the P&L computed at the start of the tick, against the pre-DCA average. -/
def trailUpdate (cfg : TradingCfg) (pnl price : ℚ) (p : Position) : Position :=
  if (if p.dcaCount = 0 then cfg.pmStartNoDca else cfg.pmStartWithDca) ≤ pnl then
    if !p.trailActive then
      { p with
          trailActive := true
          trailPeak := price
          trailLine := price * (1 - cfg.trailingGapPct / 100) }
    else if p.trailPeak < price then
      { p with
          trailPeak := price
          trailLine :=
            if p.trailLine < price * (1 - cfg.trailingGapPct / 100) then
              price * (1 - cfg.trailingGapPct / 100)
            else p.trailLine }
    else p
  else p

/-- Tail of a `processCoin` tick after the DCA block: the trailing-stop
update followed by the trailing-stop exit. A failing exit order throws out
of the tick, keeping the mutations already made to the position object. -/
def afterDca (cfg : TradingCfg) (pnl : ℚ) (inp : TickInput) (p : Position)
    (evs : List TradeEvent) : Option Position × List TradeEvent :=
  if (trailUpdate cfg pnl inp.price p).trailActive &&
      decide (inp.price < (trailUpdate cfg pnl inp.price p).trailLine) then
    if inp.trailExitOrderOk then
      (none, evs ++ [⟨Side.sell, TradeKind.trailingStop,
        (trailUpdate cfg pnl inp.price p).amount, inp.price, inp.time⟩])
    else (some (trailUpdate cfg pnl inp.price p), evs)
  else (some (trailUpdate cfg pnl inp.price p), evs)

/-- One `processCoin` tick on an existing position: strategy-signal exit
(whose failure is swallowed by an empty catch, so the tick continues), the
DCA block (a failing DCA order throws out of the tick before any position
mutation), then trailing update and trailing exit. -/
def stepOpen (cfg : TradingCfg) (p : Position) (inp : TickInput) :
    Option Position × List TradeEvent :=
  if inp.sellSignal && inp.stratExitOrderOk then
    (none, [⟨Side.sell, TradeKind.strategySignal, p.amount, inp.price, inp.time⟩])
  else if dcaTriggered cfg p.dcaCount (pnlPct p inp.price) then
    if inp.dcaOrderOk then
      afterDca cfg (pnlPct p inp.price) inp (dcaFill cfg.dcaMultiplier p inp.price)
        [⟨Side.buy, TradeKind.dca, p.amount * cfg.dcaMultiplier, inp.price, inp.time⟩]
    else (some p, [])
  else afterDca cfg (pnlPct p inp.price) inp p []

/-- One full `processCoin` tick. With no position, a buy signal enters with
`100 / price` units (`Trader.enterTrade`); a failing entry order throws
before the position is stored. -/
def processCoin (cfg : TradingCfg) (pos : Option Position) (inp : TickInput) :
    Option Position × List TradeEvent :=
  match pos with
  | none =>
    if inp.buySignal then
      if inp.entryOrderOk then
        (some ⟨100 / inp.price, inp.price, 0, false, 0, 0⟩,
         [⟨Side.buy, TradeKind.entry, 100 / inp.price, inp.price, inp.time⟩])
      else (none, [])
    else (none, [])
  | some p => stepOpen cfg p inp

/-- Iterate `processCoin` ticks over one position episode, stopping when the
position is closed and removed. -/
def runOpen (cfg : TradingCfg) : List TickInput → Position → Option Position
  | [], p => some p
  | t :: ts, p =>
    match (stepOpen cfg p t).1 with
    | none => none
    | some q => runOpen cfg ts q

/-- Iterate `processCoin` over a tick list, accumulating the trade log. -/
def runTrace (cfg : TradingCfg) :
    List TickInput → Option Position × List TradeEvent → Option Position × List TradeEvent
  | [], s => s
  | t :: ts, s =>
    let r := processCoin cfg s.1 t
    runTrace cfg ts (r.1, s.2 ++ r.2)

/-- Repeated `executeDCA` fills at the given prices. -/
def scaleIns (mult : ℚ) (pos : Position) (ps : List ℚ) : Position :=
  ps.foldl (fun q p => dcaFill mult q p) pos

/-- The (price, quantity) of each successive scale-in fill at the given
prices: each buys `mult` times the quantity held just before it. -/
def fillsOf (mult : ℚ) : Position → List ℚ → List (ℚ × ℚ)
  | _, [] => []
  | pos, p :: ps => (p, pos.amount * mult) :: fillsOf mult (dcaFill mult pos p) ps

/-- Total quantity of a list of fills. -/
def fillQty (l : List (ℚ × ℚ)) : ℚ := (l.map (fun f => f.2)).sum

/-- Total cost (price times quantity summed) of a list of fills. -/
def fillCost (l : List (ℚ × ℚ)) : ℚ := (l.map (fun f => f.1 * f.2)).sum

/-- Following the spec's words (refinement comparison only): "count only
scale-ins within the trailing `windowHours`" — the number of scale-in fills
in the trade log whose age at `now` is at most `window` hours. -/
def specWindowedScaleInCount (evs : List TradeEvent) (now window : ℚ) : ℕ :=
  (evs.filter (fun e => e.tkind == TradeKind.dca && decide (now - e.time ≤ window))).length

/-! ## Simulation engine (`BacktestEngine.run`) -/

/-- A price bar after the strategy populated indicator and signal columns
(only the fields `BacktestEngine.run` reads are modelled). -/
structure Bar where
  timestamp : ℚ
  close : ℚ
  buySignal : Bool
  sellSignal : Bool
deriving DecidableEq

/-- One record of the `trades` array built by `BacktestEngine.run`; buys
carry no `pnl` field (`none`), the forced close at series end sets a note. -/
structure BTrade where
  side : Side
  price : ℚ
  time : ℚ
  amount : ℚ
  fee : ℚ
  pnl : Option ℚ
  forced : Bool
deriving DecidableEq

/-- The mutable locals of the `BacktestEngine.run` bar loop. -/
structure SimState where
  balance : ℚ
  position : ℚ
  entryPrice : ℚ
  equityCurve : List (ℚ × ℚ)
  trades : List BTrade
  maxEquity : ℚ
  maxDrawdown : ℚ
deriving DecidableEq

/-- Mark-to-market equity at a bar: `balance`, plus the position valued at
the close when one is held. -/
def equityAt (st : SimState) (bar : Bar) : ℚ :=
  st.balance + (if 0 < st.position then st.position * bar.close else 0)

/-- `if (equity > maxEquity) maxEquity = equity`. -/
def peakAt (st : SimState) (bar : Bar) : ℚ :=
  if st.maxEquity < equityAt st bar then equityAt st bar else st.maxEquity

/-- `(maxEquity - equity) / maxEquity * 100`, against the updated peak. -/
def ddAt (st : SimState) (bar : Bar) : ℚ :=
  (peakAt st bar - equityAt st bar) / peakAt st bar * 100

/-- The per-bar bookkeeping before any trade: append to the equity curve,
update the running peak and the maximum drawdown. -/
def markEquity (st : SimState) (bar : Bar) : SimState :=
  { st with
      equityCurve := st.equityCurve ++ [(bar.timestamp, equityAt st bar)]
      maxEquity := peakAt st bar
      maxDrawdown := if st.maxDrawdown < ddAt st bar then ddAt st bar else st.maxDrawdown }

/-- Buy 99% of the balance at the close, with a 0.1% fee on the spend. -/
def buyAct (st : SimState) (bar : Bar) : SimState :=
  { st with
      balance := st.balance - (st.balance * (99 / 100) + st.balance * (99 / 100) * (1 / 1000))
      position := st.balance * (99 / 100) / bar.close
      entryPrice := bar.close
      trades := st.trades ++ [⟨Side.buy, bar.close, bar.timestamp,
        st.balance * (99 / 100) / bar.close, st.balance * (99 / 100) * (1 / 1000), none, false⟩] }

/-- Sell the whole position at the close, with a 0.1% fee on the proceeds,
recording the round-trip P&L. -/
def sellAct (st : SimState) (bar : Bar) : SimState :=
  { st with
      balance := st.balance + (st.position * bar.close - st.position * bar.close * (1 / 1000))
      trades := st.trades ++ [⟨Side.sell, bar.close, bar.timestamp, st.position,
        st.position * bar.close * (1 / 1000),
        some (st.position * bar.close - st.position * st.entryPrice -
          st.position * bar.close * (1 / 1000)), false⟩]
      position := 0
      entryPrice := 0 }

/-- One iteration of the `BacktestEngine.run` bar loop: mark to market,
update the drawdown, then buy 99% of the balance on a buy signal when flat,
or sell everything on a sell signal when long. -/
def stepBar (st : SimState) (bar : Bar) : SimState :=
  if (markEquity st bar).position = 0 then
    if bar.buySignal then buyAct (markEquity st bar) bar else markEquity st bar
  else
    if bar.sellSignal then sellAct (markEquity st bar) bar else markEquity st bar

/-- The force close at series end: if still long, sell at the last bar's
close with the 0.1% fee and tag the trade. -/
def forceClose (st : SimState) (lastBar : Option Bar) : SimState :=
  if 0 < st.position then
    match lastBar with
    | some b =>
      let proceeds := st.position * b.close
      let fee := proceeds * (1 / 1000)
      let entryCost := st.position * st.entryPrice
      let pnl := proceeds - entryCost - fee
      { st with
          balance := st.balance + (proceeds - fee)
          trades := st.trades ++ [⟨Side.sell, b.close, b.timestamp, st.position, fee, some pnl, true⟩]
          position := 0 }
    | none => st
  else st

/-- Whether a trade record's `pnl` is strictly positive (JS comparison with
`undefined` is false). -/
def pnlPos (t : BTrade) : Bool :=
  match t.pnl with
  | some v => decide (0 < v)
  | none => false

/-- Whether a trade record's `pnl` is strictly negative. -/
def pnlNeg (t : BTrade) : Bool :=
  match t.pnl with
  | some v => decide (v < 0)
  | none => false

/-- The result record returned by `BacktestEngine.run` (the `chartData`
echo of the enriched candles is omitted). -/
structure BResult where
  totalTrades : ℕ
  winRate : ℚ
  profitFactor : ℚ
  maxDrawdown : ℚ
  sharpeRatio : ℚ
  trades : List BTrade
  equityCurve : List (ℚ × ℚ)
deriving DecidableEq

/-- `BacktestEngine.run` with pre-fetched data: fail on an empty series,
populate signals over the whole series, skip a fixed 50-bar warm-up,
iterate the bar loop, force-close, and derive the metrics. -/
def runB (initial : ℚ) (annot : List Bar → List Bar) (candles : List Bar) :
    Except String BResult :=
  if candles.isEmpty then .error "No historical data found for range."
  else
    let fullData := annot candles
    let st0 : SimState := ⟨initial, 0, 0, [], [], initial, 0⟩
    let stLoop := (fullData.drop 50).foldl stepBar st0
    let st := forceClose stLoop fullData.getLast?
    let sellTrades := st.trades.filter (fun t => t.side == Side.sell)
    let totalTrades := sellTrades.length
    let wins := (sellTrades.filter pnlPos).length
    let winRate : ℚ := if 0 < totalTrades then (wins : ℚ) / (totalTrades : ℚ) * 100 else 0
    let grossProfit := ((sellTrades.filter pnlPos).map (fun t => t.pnl.getD 0)).sum
    let grossLoss := |((sellTrades.filter pnlNeg).map (fun t => t.pnl.getD 0)).sum|
    let profitFactor : ℚ :=
      if 0 < grossLoss then grossProfit / grossLoss
      else if 0 < grossProfit then 999 else 0
    .ok ⟨totalTrades, winRate, profitFactor, st.maxDrawdown, 0, st.trades, st.equityCurve⟩

/-! ## Genetic parameter search (`HyperOpt.optimize`)

Individuals are the lists of parameter values in the iteration order of the
parameter space; `Math.random()` is an explicit stream `rng : ℕ → ℚ` read at
an explicit counter. A JS `TypeError` escaping `optimize` is an `Except.error`.
-/

/-- One entry of `HyperOptConfig.parameterSpace`: `{min, max, step?}`. -/
structure PRange where
  rmin : ℚ
  rmax : ℚ
  rstep : Option ℚ
deriving DecidableEq

/-- A parameter vector, in parameter-space order. -/
abbrev Ind := List ℚ

/-- JS `Math.round`: round half toward positive infinity. -/
def jround (q : ℚ) : ℤ := ⌊q + 1 / 2⌋

/-- One parameter draw: `range.min + Math.random() * (range.max - range.min)`,
then `range.step ? Math.round(val / range.step) * range.step
: Math.round(val)` (a step of `0` is falsy in JS and behaves like no step). -/
def drawParam (r : ℚ) (pr : PRange) : ℚ :=
  let val := pr.rmin + r * (pr.rmax - pr.rmin)
  match pr.rstep with
  | some s => if s = 0 then (jround val : ℚ) else (jround (val / s) : ℚ) * s
  | none => (jround val : ℚ)

/-- `HyperOpt.generatePopulation`, one individual: draw each parameter. -/
def genInd (rng : ℕ → ℚ) (space : List PRange) (k : ℕ) : Ind × ℕ :=
  match space with
  | [] => ([], k)
  | pr :: rest =>
    let v := drawParam (rng k) pr
    let r := genInd rng rest (k + 1)
    (v :: r.1, r.2)

/-- `HyperOpt.generatePopulation`: `size` freshly drawn individuals. -/
def genPop (rng : ℕ → ℚ) (space : List PRange) : ℕ → ℕ → List Ind × ℕ
  | 0, k => ([], k)
  | n + 1, k =>
    let i := genInd rng space k
    let r := genPop rng space n i.2
    (i.1 :: r.1, r.2)

/-- The fitness block of `HyperOpt.optimize` for one individual: the score
pushed into `results` and whether the evaluation completed. Reading
`equityCurve[length-1].value` of an empty curve throws, which the
surrounding catch turns into a `-10000` score without updating the best. -/
def evalOutcome (r : Except String BResult) : ℚ × Bool :=
  match r with
  | .error _ => (-10000, false)
  | .ok res =>
    match res.equityCurve.getLast? with
    | none => (-10000, false)
    | some pr => (if 5 < res.totalTrades then pr.2 - 10000 else -5000, true)

/-- The fitness assigned to one individual's evaluation. -/
def scoreOf (r : Except String BResult) : ℚ := (evalOutcome r).1

/-- `if (!bestResult || score > bestResult.score)` — update the best-ever
`(score, params)` on strict improvement, only when the evaluation
completed. -/
def updateBest (best : Option (ℚ × Ind)) (completed : Bool) (score : ℚ) (ind : Ind) :
    Option (ℚ × Ind) :=
  if completed then
    match best with
    | none => some (score, ind)
    | some pr => if pr.1 < score then some (score, ind) else some pr
  else best

/-- Evaluate a population in order, building the `results` array and
tracking the best-ever individual. -/
def foldEval (simulate : Ind → Except String BResult) :
    List Ind → Option (ℚ × Ind) → List (Ind × ℚ) × Option (ℚ × Ind)
  | [], best => ([], best)
  | ind :: rest, best =>
    let r := foldEval simulate rest
      (updateBest best (evalOutcome (simulate ind)).2 (evalOutcome (simulate ind)).1 ind)
    ((ind, (evalOutcome (simulate ind)).1) :: r.1, r.2)

/-- Stable insertion into a list kept in descending score order, matching
the stable JS `results.sort((a, b) => b.score - a.score)`. -/
def insertDesc (x : Ind × ℚ) : List (Ind × ℚ) → List (Ind × ℚ)
  | [] => [x]
  | y :: ys => if y.2 ≤ x.2 then x :: y :: ys else y :: insertDesc x ys

/-- Stable descending sort by score. -/
def sortDesc (l : List (Ind × ℚ)) : List (Ind × ℚ) := l.foldr insertDesc []

/-- `survivors[Math.floor(Math.random() * survivors.length)]`: JS indexing
out of range (in particular on an empty survivor list) yields `undefined`. -/
def pickParent (rng : ℕ → ℚ) (survivors : List Ind) (k : ℕ) : Option Ind × ℕ :=
  let idx := ⌊rng k * (survivors.length : ℚ)⌋
  (if idx < 0 then none else survivors.get? idx.toNat, k + 1)

/-- `HyperOpt.crossover`: per parameter, take the value from one parent or
the other with equal probability; reading a parameter off an `undefined`
parent throws a `TypeError`. `n` counts the remaining parameters, `j` is
the current parameter index. -/
def crossChild (rng : ℕ → ℚ) (p1 p2 : Option Ind) : ℕ → ℕ → ℕ → Except String (Ind × ℕ)
  | 0, _, k => .ok ([], k)
  | n + 1, j, k =>
    let chosen := if 1 / 2 < rng k then p1 else p2
    match chosen with
    | none => .error "TypeError: Cannot read properties of undefined"
    | some ind =>
      match crossChild rng p1 p2 n (j + 1) (k + 1) with
      | .error e => .error e
      | .ok r => .ok (ind.getD j 0 :: r.1, r.2)

/-- The reproduction loop of `HyperOpt.optimize`: produce `n` children by
crossover of two survivors picked with replacement. -/
def makeOffspring (rng : ℕ → ℚ) (survivors : List Ind) (nkeys : ℕ) :
    ℕ → ℕ → Except String (List Ind × ℕ)
  | 0, k => .ok ([], k)
  | n + 1, k =>
    let a := pickParent rng survivors k
    let b := pickParent rng survivors a.2
    match crossChild rng a.1 b.1 nkeys 0 b.2 with
    | .error e => .error e
    | .ok c =>
      match makeOffspring rng survivors nkeys n c.2 with
      | .error e => .error e
      | .ok r => .ok (c.1 :: r.1, r.2)

/-- `HyperOpt.mutate` with rate 0.1: with the roll at or below the rate,
re-randomize exactly one parameter; with an empty parameter space the key
is `undefined` and reading `range.min` throws. -/
def mutateOne (rng : ℕ → ℚ) (space : List PRange) (ind : Ind) (k : ℕ) :
    Except String (Ind × ℕ) :=
  if 1 / 10 < rng k then .ok (ind, k + 1)
  else
    let ki := ⌊rng (k + 1) * (space.length : ℚ)⌋
    if ki < 0 then .error "TypeError: Cannot read properties of undefined"
    else
      match space.get? ki.toNat with
      | none => .error "TypeError: Cannot read properties of undefined"
      | some pr => .ok (ind.set ki.toNat (drawParam (rng (k + 2)) pr), k + 3)

/-- `population.map(p => this.mutate(p, space, 0.1))`, threading the
random stream left to right. -/
def mutateAll (rng : ℕ → ℚ) (space : List PRange) :
    List Ind → ℕ → Except String (List Ind × ℕ)
  | [], k => .ok ([], k)
  | ind :: rest, k =>
    match mutateOne rng space ind k with
    | .error e => .error e
    | .ok i =>
      match mutateAll rng space rest i.2 with
      | .error e => .error e
      | .ok r => .ok (i.1 :: r.1, r.2)

/-- Selection already done: refill with offspring, then mutate the whole
new population (survivors included). -/
def nextPopulation (rng : ℕ → ℚ) (space : List PRange) (popSize : ℕ)
    (survivors : List Ind) (k : ℕ) : Except String (List Ind × ℕ) :=
  match makeOffspring rng survivors space.length (popSize - survivors.length) k with
  | .error e => .error e
  | .ok o => mutateAll rng space (survivors ++ o.1) o.2

/-- One line of the returned `evolution` statistics. -/
structure GenStat where
  gen : ℕ
  bestScore : ℚ
  avgScore : ℚ
deriving DecidableEq

/-- The value returned by `HyperOpt.optimize` (the `bestResult` metric echo
is omitted); `bestScore` is `bestResult?.score`, `none` for JS `undefined`. -/
structure SearchRes where
  bestParams : Option Ind
  bestScore : Option ℚ
  evolution : List GenStat
deriving DecidableEq

/-- The generation loop of `HyperOpt.optimize`: evaluate, sort descending
(`results[0]` of an empty results array throws), record statistics, keep the
top `Math.floor(populationSize * 0.2)` as survivors, refill by crossover and
mutate. `g` counts the remaining generations, `gi` the finished ones. -/
def optLoop (simulate : Ind → Except String BResult) (rng : ℕ → ℚ)
    (space : List PRange) (popSize : ℕ) :
    ℕ → ℕ → List Ind → Option (ℚ × Ind) → List GenStat → ℕ →
    Except String (Option (ℚ × Ind) × List GenStat)
  | 0, _, _, best, stats, _ => .ok (best, stats)
  | g + 1, gi, pop, best, stats, k =>
    let fe := foldEval simulate pop best
    match sortDesc fe.1 with
    | [] => .error "TypeError: Cannot read properties of undefined"
    | top :: _ =>
      let avg := ((fe.1.map (fun pr => pr.2)).sum) / (fe.1.length : ℚ)
      let stat : GenStat := ⟨gi + 1, top.2, avg⟩
      let survivors := ((sortDesc fe.1).take (popSize / 5)).map (fun pr => pr.1)
      match nextPopulation rng space popSize survivors k with
      | .error e => .error e
      | .ok np => optLoop simulate rng space popSize g (gi + 1) np.1 fe.2 (stats ++ [stat]) np.2

/-- `HyperOpt.optimize` with pre-fetched candles: fail on empty data,
draw the initial population, run the generations against the backtest
engine with a hardcoded initial balance of 10000, and return the best-ever
score and parameters with the per-generation statistics. -/
def optimize (popSize gens : ℕ) (space : List PRange) (bars : List Bar)
    (strat : Ind → List Bar → List Bar) (rng : ℕ → ℚ) : Except String SearchRes :=
  if bars.isEmpty then .error "No data for optimization"
  else
    let p0 := genPop rng space popSize 0
    match optLoop (fun ind => runB 10000 (strat ind) bars) rng space popSize gens 0 p0.1
        none [] p0.2 with
    | .error e => .error e
    | .ok r => .ok ⟨r.1.map (fun pr => pr.2), r.1.map (fun pr => pr.1), r.2⟩

/-! ## Concrete instances used by the scenario and counterexample theorems -/

/-- scaleInLevels = [-2.5, -5.0], multiplier 2.0, defaults elsewhere. -/
def c1cfg : TradingCfg := ⟨[-5/2, -5], 2, 2, 3/2, 3/2, 1/2⟩

/-- Entry at price 100 with quantity 1. -/
def c1pos : Position := ⟨1, 100, 0, false, 0, 0⟩

/-- A tick at price 97.4 with all orders accepted and no strategy signal. -/
def c1inp : TickInput := ⟨487/5, 0, false, false, true, true, true, true⟩

/-- A position already in the trailing state with peak 110 and line 107.8. -/
def c2pos : Position := ⟨1, 100, 0, true, 110, 539/5⟩

/-- A tick at price 115 that must ratchet the trailing line upward. -/
def c2tick : TickInput := ⟨115, 0, false, false, true, true, true, true⟩

def c3cfg : TradingCfg := ⟨[-5/2, -5], 2, 2, 3/2, 3/2, 2⟩

def c3pos : Position := ⟨1, 100, 0, false, 0, 0⟩

/-- Hour 0, price 97: first scale-in (−3% ≤ −2.5%). -/
def c3t1 : TickInput := ⟨97, 0, false, false, true, true, true, true⟩

/-- Hour 1, price 93: second scale-in (−5.1% ≤ −5%). -/
def c3t2 : TickInput := ⟨93, 1, false, false, true, true, true, true⟩

/-- Hour 30, price 80: both earlier scale-ins are older than 24 hours. -/
def c3t3 : TickInput := ⟨80, 30, false, false, true, true, true, true⟩

def c8cfg : TradingCfg := ⟨[-5/2, -5], 2, 2, 3/2, 3/2, 2⟩

/-- An open trailing position from a previous tick. -/
def c8pos : Position := ⟨1, 100, 0, true, 110, 539/5⟩

/-- Price 97: the scale-in order succeeds, the trailing-stop exit order throws. -/
def c8inp : TickInput := ⟨97, 5, false, false, true, true, true, false⟩

/-- A signal-free warm-up bar at price 1. -/
def warmBar : Bar := ⟨0, 1, false, false⟩

/-- A buy-signal bar at price 10. -/
def buyBar10 : Bar := ⟨0, 10, true, false⟩

/-- A sell-signal bar at price 1. -/
def sellBar1 : Bar := ⟨0, 1, false, true⟩

/-- 50 warm-up bars, then six buy-high/sell-low round trips, each losing
roughly 89% of the account. -/
def c4bars : List Bar :=
  List.replicate 50 warmBar ++
    [buyBar10, sellBar1, buyBar10, sellBar1, buyBar10, sellBar1,
     buyBar10, sellBar1, buyBar10, sellBar1, buyBar10, sellBar1]

/-- A bar carrying both signals, for the short-series theorems. -/
def sigBar : Bar := ⟨0, 1, true, true⟩

/-- A one-parameter search space over [0, 10] with no step. -/
def oneParamSpace : List PRange := [⟨0, 10, none⟩]

/-- Ten bars: non-empty, but entirely inside the 50-bar warm-up, so every
simulation completes with an empty equity curve. -/
def c6bars : List Bar := List.replicate 10 warmBar

/-- Fifty-one signal-free bars: one bar past the warm-up, so a run yields a
one-point equity curve at the initial capital and zero trades. -/
def bars51 : List Bar := List.replicate 51 warmBar

/-- A random stream that mutates all five individuals of the next
generation to the parameter value 5. -/
def c5rng : ℕ → ℚ :=
  fun n => if n = 14 ∨ n = 17 ∨ n = 20 ∨ n = 23 ∨ n = 26 then 1/2 else 0

/-! ## Helper lemmas: evaluation of the derived boolean equalities -/

@[simp] theorem beq_buy_sell : (Side.buy == Side.sell) = false := rfl

@[simp] theorem beq_sell_sell : (Side.sell == Side.sell) = true := rfl

@[simp] theorem beq_buy_buy : (Side.buy == Side.buy) = true := rfl

@[simp] theorem beq_sell_buy : (Side.sell == Side.buy) = false := rfl

@[simp] theorem beq_entry_dca : (TradeKind.entry == TradeKind.dca) = false := rfl

@[simp] theorem beq_dca_dca : (TradeKind.dca == TradeKind.dca) = true := rfl

@[simp] theorem beq_trailingStop_dca : (TradeKind.trailingStop == TradeKind.dca) = false := rfl

@[simp] theorem beq_strategySignal_dca : (TradeKind.strategySignal == TradeKind.dca) = false := rfl

/-! ## Helper lemmas: the position engine -/

theorem dcaFill_amount (m : ℚ) (p : Position) (price : ℚ) :
    (dcaFill m p price).amount = p.amount * (1 + m) := by
  simp [dcaFill]; ring

theorem dcaFill_avg (m : ℚ) (p : Position) (price : ℚ) :
    (dcaFill m p price).avgPrice =
      (p.avgPrice * p.amount + price * (p.amount * m)) / (p.amount + p.amount * m) := rfl

theorem dcaFill_cost (m : ℚ) (p : Position) (price : ℚ)
    (h : p.amount + p.amount * m ≠ 0) :
    (dcaFill m p price).avgPrice * (dcaFill m p price).amount =
      p.avgPrice * p.amount + price * (p.amount * m) := by
  simp only [dcaFill]
  field_simp

theorem scaleIns_amount_pos (m : ℚ) (hm : 0 < m) :
    ∀ (ps : List ℚ) (p : Position), 0 < p.amount → 0 < (scaleIns m p ps).amount := by
  intro ps
  induction ps with
  | nil => intro p hp; simpa [scaleIns] using hp
  | cons q qs ih =>
    intro p hp
    have h1 : 0 < (dcaFill m p q).amount := by
      rw [dcaFill_amount]; positivity
    simpa [scaleIns] using ih (dcaFill m p q) h1

theorem scaleIns_weighted (m : ℚ) (hm : 0 < m) :
    ∀ (ps : List ℚ) (p : Position), 0 < p.amount →
      (scaleIns m p ps).amount = fillQty ((p.avgPrice, p.amount) :: fillsOf m p ps) ∧
      (scaleIns m p ps).avgPrice * (scaleIns m p ps).amount =
        fillCost ((p.avgPrice, p.amount) :: fillsOf m p ps) := by
  intro ps
  induction ps with
  | nil =>
    intro p hp
    constructor
    · simp [scaleIns, fillsOf, fillQty]
    · simp [scaleIns, fillsOf, fillCost]
  | cons q qs ih =>
    intro p hp
    have hp1 : 0 < (dcaFill m p q).amount := by
      rw [dcaFill_amount]; positivity
    have hne : p.amount + p.amount * m ≠ 0 := by nlinarith
    obtain ⟨ihA, ihC⟩ := ih (dcaFill m p q) hp1
    have hstep : scaleIns m p (q :: qs) = scaleIns m (dcaFill m p q) qs := by
      simp [scaleIns]
    constructor
    · rw [hstep, ihA]
      simp [fillQty, fillsOf, dcaFill_amount]
      ring
    · rw [hstep, ihC]
      simp only [fillCost, fillsOf, List.map_cons, List.sum_cons]
      rw [dcaFill_cost m p q hne]
      ring

theorem trailUpdate_mono (cfg : TradingCfg) (pnl price : ℚ) (p : Position)
    (h : p.trailActive = true) :
    (trailUpdate cfg pnl price p).trailActive = true ∧
      p.trailLine ≤ (trailUpdate cfg pnl price p).trailLine := by
  unfold trailUpdate
  rcases le_or_lt (if p.dcaCount = 0 then cfg.pmStartNoDca else cfg.pmStartWithDca) pnl with
    hle | hlt
  · rw [if_pos hle, h]
    simp only [Bool.not_true, Bool.false_eq_true, if_false]
    rcases lt_or_ge p.trailPeak price with hpk | hpk
    · rw [if_pos hpk]
      refine ⟨rfl, ?_⟩
      dsimp only
      rcases lt_or_ge p.trailLine (price * (1 - cfg.trailingGapPct / 100)) with hl | hl
      · rw [if_pos hl]; exact le_of_lt hl
      · rw [if_neg (not_lt.mpr hl)]
    · rw [if_neg (not_lt.mpr hpk)]
      exact ⟨h, le_refl _⟩
  · rw [if_neg (not_le.mpr hlt)]
    exact ⟨h, le_refl _⟩

theorem dcaFill_trail (m : ℚ) (p : Position) (price : ℚ) :
    (dcaFill m p price).trailActive = p.trailActive ∧
      (dcaFill m p price).trailLine = p.trailLine := ⟨rfl, rfl⟩

theorem afterDca_trail (cfg : TradingCfg) (pnl : ℚ) (inp : TickInput) (p : Position)
    (evs : List TradeEvent) (h : p.trailActive = true) :
    (afterDca cfg pnl inp p evs).1 = none ∨
      ∃ q, (afterDca cfg pnl inp p evs).1 = some q ∧ q.trailActive = true ∧
        p.trailLine ≤ q.trailLine := by
  obtain ⟨hA, hL⟩ := trailUpdate_mono cfg pnl inp.price p h
  unfold afterDca
  split
  · split
    · exact Or.inl rfl
    · exact Or.inr ⟨_, rfl, hA, hL⟩
  · exact Or.inr ⟨_, rfl, hA, hL⟩

theorem stepOpen_trail (cfg : TradingCfg) (p : Position) (inp : TickInput)
    (h : p.trailActive = true) :
    (stepOpen cfg p inp).1 = none ∨
      ∃ q, (stepOpen cfg p inp).1 = some q ∧ q.trailActive = true ∧
        p.trailLine ≤ q.trailLine := by
  unfold stepOpen
  split
  · exact Or.inl rfl
  · split
    · split
      · have hA : (dcaFill cfg.dcaMultiplier p inp.price).trailActive = true := h
        have h2 := afterDca_trail cfg (pnlPct p inp.price) inp
          (dcaFill cfg.dcaMultiplier p inp.price)
          [⟨Side.buy, TradeKind.dca, p.amount * cfg.dcaMultiplier, inp.price, inp.time⟩] hA
        rcases h2 with h1 | ⟨q, h1, hq, h3⟩
        · exact Or.inl h1
        · exact Or.inr ⟨q, h1, hq, h3⟩
      · exact Or.inr ⟨p, rfl, h, le_refl _⟩
    · exact afterDca_trail cfg (pnlPct p inp.price) inp p [] h

theorem afterDca_some (cfg : TradingCfg) (pnl : ℚ) (inp : TickInput) (p : Position)
    (evs : List TradeEvent) (h : inp.trailExitOrderOk = false) :
    ∃ q, (afterDca cfg pnl inp p evs).1 = some q := by
  unfold afterDca
  split
  · rw [h]
    simp only [Bool.false_eq_true, if_false]
    exact ⟨_, rfl⟩
  · exact ⟨_, rfl⟩

/-! ## Claim theorems: the position engine -/

/-- C1: every executed scale-in recomputes the average entry price as
`(avg*qty + price*addedQty) / (qty + addedQty)` exactly; consequently after
any sequence of scale-ins the average entry price is the volume-weighted
mean (total cost over total quantity) of the initial fill and all scale-in
fills, and the held quantity is the total filled quantity; and in the
concrete scenario — levels [-2.5, -5.0], multiplier 2.0, entry at 100 with
quantity 1, price 97.4 — the tick executes exactly one scale-in, giving
quantity 3 and average (100*1 + 97.4*2)/3 = 1474/15. -/
theorem c1_average_entry_price :
    (∀ (m : ℚ) (p : Position) (price : ℚ),
      (dcaFill m p price).avgPrice =
        (p.avgPrice * p.amount + price * (p.amount * m)) / (p.amount + p.amount * m)) ∧
    (∀ (m : ℚ) (p : Position) (ps : List ℚ), 0 < m → 0 < p.amount →
      (scaleIns m p ps).avgPrice =
        fillCost ((p.avgPrice, p.amount) :: fillsOf m p ps) /
          fillQty ((p.avgPrice, p.amount) :: fillsOf m p ps) ∧
      (scaleIns m p ps).amount = fillQty ((p.avgPrice, p.amount) :: fillsOf m p ps)) ∧
    stepOpen c1cfg c1pos c1inp =
      (some ⟨3, 1474/15, 1, false, 0, 0⟩,
       [⟨Side.buy, TradeKind.dca, 2, 487/5, 0⟩]) := by
  refine ⟨dcaFill_avg, ?_, by
    norm_num [stepOpen, afterDca, trailUpdate, dcaTriggered, nextLevel, dcaFill, pnlPct,
      c1cfg, c1pos, c1inp]⟩
  intro m p ps hm hp
  obtain ⟨hA, hC⟩ := scaleIns_weighted m hm ps p hp
  have hq : 0 < (scaleIns m p ps).amount := scaleIns_amount_pos m hm ps p hp
  refine ⟨?_, hA⟩
  rw [← hA, ← hC]
  exact (mul_div_cancel_right₀ _ (ne_of_gt hq)).symm

/-- C1 witness: the general weighted-mean statement evaluated at the
scenario inputs (multiplier 2, one scale-in at 97.4 on an entry of
quantity 1 at price 100). -/
theorem c1_witness :
    (scaleIns 2 c1pos [487/5]).avgPrice =
      fillCost ((c1pos.avgPrice, c1pos.amount) :: fillsOf 2 c1pos [487/5]) /
        fillQty ((c1pos.avgPrice, c1pos.amount) :: fillsOf 2 c1pos [487/5]) ∧
    (scaleIns 2 c1pos [487/5]).amount =
      fillQty ((c1pos.avgPrice, c1pos.amount) :: fillsOf 2 c1pos [487/5]) :=
  c1_average_entry_price.2.1 2 c1pos [487/5] (by norm_num) (by norm_num [c1pos])

/-- C2: once a position is in the trailing state, any sequence of
evaluation ticks that leaves the position open keeps it trailing and never
lowers the trailing stop line. -/
theorem c2_trailing_stop_monotone (cfg : TradingCfg) (ts : List TickInput) (p q : Position)
    (h : p.trailActive = true) (hrun : runOpen cfg ts p = some q) :
    q.trailActive = true ∧ p.trailLine ≤ q.trailLine := by
  induction ts generalizing p with
  | nil =>
    unfold runOpen at hrun
    cases hrun
    exact ⟨h, le_refl _⟩
  | cons t ts ih =>
    unfold runOpen at hrun
    rcases stepOpen_trail cfg p t h with h1 | ⟨r, h1, hr, h3⟩
    · rw [h1] at hrun
      exact absurd hrun (by simp)
    · rw [h1] at hrun
      obtain ⟨hq, hline⟩ := ih r hr hrun
      exact ⟨hq, le_trans h3 hline⟩

/-- C2 witness: a trailing position with line 107.8 ratchets to 112.7 on a
tick at price 115 and the line did not decrease. -/
theorem c2_witness :
    (⟨1, 100, 0, true, 115, 1127/10⟩ : Position).trailActive = true ∧
      c2pos.trailLine ≤ (⟨1, 100, 0, true, 115, 1127/10⟩ : Position).trailLine :=
  c2_trailing_stop_monotone c3cfg [c2tick] c2pos ⟨1, 100, 0, true, 115, 1127/10⟩ rfl (by
    norm_num [runOpen, stepOpen, afterDca, trailUpdate, dcaTriggered, nextLevel, dcaFill,
      pnlPct, c3cfg, c2pos, c2tick])

/-- C3: the code counts scale-ins over the whole lifetime of the position
(`position.dcaCount` is never reset), not within a rolling window. Failing
input: two scale-ins at hours 0 and 1; at hour 30 the price 80 gives P&L
−15.5% (negative and below the level −2.5% for the windowed count 0), the
24-hour windowed scale-in count is 0 < 2, yet the tick issues no scale-in
and changes nothing. -/
theorem c3_windowed_count_failing_input :
    (runTrace c3cfg [c3t1, c3t2] (some c3pos, [])).1 = some ⟨9, 284/3, 2, false, 0, 0⟩ ∧
    (runTrace c3cfg [c3t1, c3t2] (some c3pos, [])).2 =
      [⟨Side.buy, TradeKind.dca, 2, 97, 0⟩, ⟨Side.buy, TradeKind.dca, 6, 93, 1⟩] ∧
    specWindowedScaleInCount (runTrace c3cfg [c3t1, c3t2] (some c3pos, [])).2 30 24 = 0 ∧
    specWindowedScaleInCount (runTrace c3cfg [c3t1, c3t2] (some c3pos, [])).2 30 24 <
      c3cfg.maxDcaBuys ∧
    pnlPct ⟨9, 284/3, 2, false, 0, 0⟩ 80 < 0 ∧
    nextLevel c3cfg 0 = some (-5/2) ∧
    pnlPct ⟨9, 284/3, 2, false, 0, 0⟩ 80 ≤ -5/2 ∧
    runTrace c3cfg [c3t1, c3t2, c3t3] (some c3pos, []) =
      runTrace c3cfg [c3t1, c3t2] (some c3pos, []) := by
  norm_num [runTrace, processCoin, stepOpen, afterDca, trailUpdate, dcaTriggered, nextLevel,
    dcaFill, pnlPct, specWindowedScaleInCount, List.filter,
    c3cfg, c3pos, c3t1, c3t2, c3t3]

/-- C8 counterexample: the trailing-stop exit order throws, yet the
position after the tick differs from the position before it (the scale-in
executed earlier in the same tick persists). -/
theorem c8_counterexample :
    c8inp.trailExitOrderOk = false ∧
    (stepOpen c8cfg c8pos c8inp).1 = some ⟨3, 98, 1, true, 110, 539/5⟩ ∧
    (stepOpen c8cfg c8pos c8inp).1 ≠ some c8pos ∧
    (stepOpen c8cfg c8pos c8inp).1 ≠ none := by
  have h : (stepOpen c8cfg c8pos c8inp).1 = some ⟨3, 98, 1, true, 110, 539/5⟩ := by
    norm_num [stepOpen, afterDca, trailUpdate, dcaTriggered, nextLevel, dcaFill, pnlPct,
      c8cfg, c8pos, c8inp]
  refine ⟨rfl, h, ?_, ?_⟩
  · rw [h]
    norm_num [c8pos]
  · rw [h]
    exact Option.some_ne_none _

/-- C8 amended: a throwing order call never applies its own transition —
a failed entry order leaves no position stored; a failed scale-in order
aborts the tick with the position exactly as it was at the start of the
tick; a failed exit order (with no successful strategy-signal exit in the
same tick) never deletes the position — though a scale-in that succeeded
earlier in the same tick persists. -/
theorem c8_failed_order_state :
    (∀ (cfg : TradingCfg) (inp : TickInput), inp.entryOrderOk = false →
      processCoin cfg none inp = (none, [])) ∧
    (∀ (cfg : TradingCfg) (p : Position) (inp : TickInput), inp.dcaOrderOk = false →
      (inp.sellSignal = true → inp.stratExitOrderOk = false) →
      dcaTriggered cfg p.dcaCount (pnlPct p inp.price) = true →
      stepOpen cfg p inp = (some p, [])) ∧
    (∀ (cfg : TradingCfg) (p : Position) (inp : TickInput), inp.trailExitOrderOk = false →
      (inp.sellSignal = true → inp.stratExitOrderOk = false) →
      ∃ q, (stepOpen cfg p inp).1 = some q) := by
  refine ⟨?_, ?_, ?_⟩
  · intro cfg inp h
    simp [processCoin, h]
  · intro cfg p inp hdca hsig htrig
    have hss : (inp.sellSignal && inp.stratExitOrderOk) = false := by
      cases hs : inp.sellSignal
      · simp
      · simp [hsig hs]
    unfold stepOpen
    rw [hss, htrig, hdca]
    simp
  · intro cfg p inp htr hsig
    have hss : (inp.sellSignal && inp.stratExitOrderOk) = false := by
      cases hs : inp.sellSignal
      · simp
      · simp [hsig hs]
    unfold stepOpen
    rw [hss]
    simp only [Bool.false_eq_true, if_false]
    split
    · split
      · exact afterDca_some cfg (pnlPct p inp.price) inp _ _ htr
      · exact ⟨p, rfl⟩
    · exact afterDca_some cfg (pnlPct p inp.price) inp p [] htr

/-- C8 witness: the amended statement applied to the concrete failing-exit
tick — the position is still present after the tick. -/
theorem c8_witness : ∃ q, (stepOpen c8cfg c8pos c8inp).1 = some q :=
  c8_failed_order_state.2.2 c8cfg c8pos c8inp rfl (fun hs => by simp [c8inp] at hs)

/-! ## Helper lemmas: the simulation engine -/

@[simp] theorem markEquity_balance (st : SimState) (bar : Bar) :
    (markEquity st bar).balance = st.balance := rfl

@[simp] theorem markEquity_position (st : SimState) (bar : Bar) :
    (markEquity st bar).position = st.position := rfl

@[simp] theorem markEquity_equityCurve (st : SimState) (bar : Bar) :
    (markEquity st bar).equityCurve = st.equityCurve ++ [(bar.timestamp, equityAt st bar)] := rfl

@[simp] theorem buyAct_balance (st : SimState) (bar : Bar) :
    (buyAct st bar).balance =
      st.balance - (st.balance * (99 / 100) + st.balance * (99 / 100) * (1 / 1000)) := rfl

@[simp] theorem buyAct_position (st : SimState) (bar : Bar) :
    (buyAct st bar).position = st.balance * (99 / 100) / bar.close := rfl

@[simp] theorem buyAct_equityCurve (st : SimState) (bar : Bar) :
    (buyAct st bar).equityCurve = st.equityCurve := rfl

@[simp] theorem sellAct_balance (st : SimState) (bar : Bar) :
    (sellAct st bar).balance =
      st.balance + (st.position * bar.close - st.position * bar.close * (1 / 1000)) := rfl

@[simp] theorem sellAct_position (st : SimState) (bar : Bar) :
    (sellAct st bar).position = 0 := rfl

@[simp] theorem sellAct_equityCurve (st : SimState) (bar : Bar) :
    (sellAct st bar).equityCurve = st.equityCurve := rfl

theorem stepBar_nonneg (st : SimState) (bar : Bar)
    (hb : 0 ≤ st.balance) (hp : 0 ≤ st.position) (hc : 0 ≤ bar.close)
    (hcurve : ∀ pr ∈ st.equityCurve, 0 ≤ pr.2) :
    0 ≤ (stepBar st bar).balance ∧ 0 ≤ (stepBar st bar).position ∧
      ∀ pr ∈ (stepBar st bar).equityCurve, 0 ≤ pr.2 := by
  have heq : 0 ≤ equityAt st bar := by
    unfold equityAt
    split
    · nlinarith [mul_nonneg hp hc]
    · linarith
  have hcurve2 : ∀ pr ∈ (markEquity st bar).equityCurve, 0 ≤ pr.2 := by
    intro pr hpr
    rw [markEquity_equityCurve] at hpr
    rcases List.mem_append.mp hpr with h | h
    · exact hcurve pr h
    · rcases List.mem_singleton.mp h with rfl
      exact heq
  unfold stepBar
  split
  · split
    · refine ⟨?_, ?_, ?_⟩
      · rw [buyAct_balance, markEquity_balance]
        linarith
      · rw [buyAct_position, markEquity_balance]
        exact div_nonneg (mul_nonneg hb (by norm_num)) hc
      · rw [buyAct_equityCurve]
        exact hcurve2
    · exact ⟨by simpa using hb, by simpa using hp, hcurve2⟩
  · split
    · refine ⟨?_, ?_, ?_⟩
      · rw [sellAct_balance, markEquity_balance, markEquity_position]
        nlinarith [mul_nonneg hp hc]
      · rw [sellAct_position]
      · rw [sellAct_equityCurve]
        exact hcurve2
    · exact ⟨by simpa using hb, by simpa using hp, hcurve2⟩

theorem foldBars_nonneg :
    ∀ (l : List Bar) (st : SimState), (∀ b ∈ l, 0 ≤ b.close) →
      0 ≤ st.balance → 0 ≤ st.position → (∀ pr ∈ st.equityCurve, 0 ≤ pr.2) →
      ∀ pr ∈ (l.foldl stepBar st).equityCurve, 0 ≤ pr.2 := by
  intro l
  induction l with
  | nil => intro st _ _ _ hcurve; simpa using hcurve
  | cons b bs ih =>
    intro st hcl hb hp hcurve
    obtain ⟨h1, h2, h3⟩ := stepBar_nonneg st b hb hp (hcl b (by simp)) hcurve
    simpa using ih (stepBar st b) (fun x hx => hcl x (by simp [hx])) h1 h2 h3

theorem forceClose_curve (st : SimState) (lb : Option Bar) :
    (forceClose st lb).equityCurve = st.equityCurve := by
  unfold forceClose
  split
  · split <;> rfl
  · rfl

theorem runB_curve_nonneg (initial : ℚ) (annot : List Bar → List Bar) (candles : List Bar)
    (res : BResult) (hi : 0 ≤ initial) (hc : ∀ b ∈ annot candles, 0 ≤ b.close)
    (hok : runB initial annot candles = .ok res) :
    ∀ pr ∈ res.equityCurve, 0 ≤ pr.2 := by
  unfold runB at hok
  split at hok
  · exact absurd hok (by simp)
  · rw [Except.ok.injEq] at hok
    subst hok
    simp only [forceClose_curve]
    exact foldBars_nonneg ((annot candles).drop 50) ⟨initial, 0, 0, [], [], initial, 0⟩
      (fun b hb => hc b (List.drop_subset 50 (annot candles) hb)) hi le_rfl (by simp)

theorem evalOutcome_incomplete (r : Except String BResult)
    (h : (evalOutcome r).2 = false) : (evalOutcome r).1 = -10000 := by
  cases r with
  | error e => rfl
  | ok res =>
    cases hl : res.equityCurve.getLast? with
    | none => simp [evalOutcome, hl]
    | some pr =>
      exact absurd h (by simp [evalOutcome, hl])

theorem scoreOf_completed_ge (annot : List Bar → List Bar) (candles : List Bar)
    (hc : ∀ b ∈ annot candles, 0 ≤ b.close)
    (h : (evalOutcome (runB 10000 annot candles)).2 = true) :
    -10000 ≤ (evalOutcome (runB 10000 annot candles)).1 := by
  cases hr : runB 10000 annot candles with
  | error e => norm_num [evalOutcome]
  | ok res =>
    rw [hr] at h
    cases hl : res.equityCurve.getLast? with
    | none => exact absurd h (by simp [evalOutcome, hl])
    | some pr =>
      have hpr : pr ∈ res.equityCurve := by
        obtain ⟨hne, hx⟩ := List.mem_getLast?_eq_getLast (Option.mem_def.mpr hl)
        rw [hx]
        exact List.getLast_mem hne
      have hge : 0 ≤ pr.2 :=
        runB_curve_nonneg 10000 annot candles res (by norm_num) hc hr pr hpr
      simp only [evalOutcome, hl]
      split <;> linarith

/-! ## Claim theorems: the simulation engine -/

/-- C7: the simulation engine is a pure function of its inputs — two runs
on equal initial capital, equal strategy annotation and equal provided bar
series return equal results. -/
theorem c7_determinism (i1 i2 : ℚ) (a1 a2 : List Bar → List Bar) (d1 d2 : List Bar)
    (hi : i1 = i2) (ha : a1 = a2) (hd : d1 = d2) :
    runB i1 a1 d1 = runB i2 a2 d2 := by rw [hi, ha, hd]

/-- C7 witness: the determinism statement applied at a concrete input. -/
theorem c7_witness :
    runB 10000 (fun l => l) [sigBar] = runB 10000 (fun l => l) [sigBar] :=
  c7_determinism 10000 10000 (fun l => l) (fun l => l) [sigBar] [sigBar] rfl rfl rfl

/-- C9: on any non-empty series whose annotated form has at most 50 bars
(the fixed warm-up), the run succeeds with zero trades, an empty trades
list, an empty equity curve, winRate 0, profitFactor 0 and maxDrawdown 0,
whatever the signals are. -/
theorem c9_short_series (init : ℚ) (annot : List Bar → List Bar) (candles : List Bar)
    (h1 : candles ≠ []) (h2 : candles.length ≤ 50)
    (h3 : (annot candles).length = candles.length) :
    runB init annot candles = .ok ⟨0, 0, 0, 0, 0, [], []⟩ := by
  have hne : candles.isEmpty = false := by simp [List.isEmpty_iff, h1]
  have hdrop : (annot candles).drop 50 = [] := by
    apply List.drop_eq_nil_of_le
    rw [h3]; exact h2
  unfold runB
  rw [hne]
  simp only [Bool.false_eq_true, if_false]
  rw [hdrop]
  norm_num [forceClose, List.filter]

/-- C9 witness: a single bar that carries both signals still yields the
empty zero-metric result. -/
theorem c9_witness :
    runB 10000 (fun l => l) [sigBar] = .ok ⟨0, 0, 0, 0, 0, [], []⟩ :=
  c9_short_series 10000 (fun l => l) [sigBar] (by simp) (by norm_num) rfl

/-- C4 counterexample: a simulation that completes with 6 > 5 trades whose
fitness (final equity minus the 10000 initial capital) is below the -5000
under-trading penalty — the penalty is not lower than every realizable
loss. -/
theorem c4_counterexample :
    (runB 10000 (fun l => l) c4bars).toOption.map (fun r => r.totalTrades) = some 6 ∧
    scoreOf (runB 10000 (fun l => l) c4bars) < -5000 := by
  norm_num [runB, c4bars, warmBar, buyBar10, sellBar1, stepBar, markEquity, buyAct, sellAct,
    equityAt, peakAt, ddAt, forceClose, scoreOf, evalOutcome, pnlPos, pnlNeg,
    List.replicate, List.filter, Except.toOption]

/-- C4 amended: the fitness of a completed evaluation equals final equity
minus the 10000 initial capital when totalTrades > 5 and the fixed -5000
penalty otherwise; the penalty is not, however, a lower bound on completed
fitness values (see the counterexample). -/
theorem c4_fitness_rule (res : BResult) (pr : ℚ × ℚ)
    (h : res.equityCurve.getLast? = some pr) :
    scoreOf (.ok res) = if 5 < res.totalTrades then pr.2 - 10000 else -5000 := by
  simp [scoreOf, evalOutcome, h]

/-- C4 witness: the spec scenario — a result with totalTrades = 3 receives
the fixed penalty regardless of its raw profit. -/
theorem c4_witness :
    scoreOf (.ok ⟨3, 0, 0, 0, 0, [], [(0, 12000)]⟩) = -5000 := by
  have h := c4_fitness_rule ⟨3, 0, 0, 0, 0, [], [(0, 12000)]⟩ (0, 12000) rfl
  simpa using h

/-! ## Helper lemmas: the genetic parameter search -/

theorem updateBest_mono (best : Option (ℚ × Ind)) (c : Bool) (s : ℚ) (ind : Ind)
    (b : ℚ) (i : Ind) (h : best = some (b, i)) :
    ∃ b1 i1, updateBest best c s ind = some (b1, i1) ∧ b ≤ b1 := by
  cases c with
  | false => exact ⟨b, i, by simp [updateBest, h], le_refl b⟩
  | true =>
    subst h
    by_cases hlt : b < s
    · exact ⟨s, ind, by simp [updateBest, hlt], le_of_lt hlt⟩
    · exact ⟨b, i, by simp [updateBest, hlt], le_refl b⟩

theorem updateBest_lb (best : Option (ℚ × Ind)) (c : Bool) (s : ℚ) (ind : Ind)
    (hb : ∀ b i, best = some (b, i) → -10000 ≤ b) (hs : c = true → -10000 ≤ s) :
    ∀ b i, updateBest best c s ind = some (b, i) → -10000 ≤ b := by
  intro b i h
  cases c with
  | false => exact hb b i (by simpa [updateBest] using h)
  | true =>
    cases hbe : best with
    | none =>
      rw [hbe] at h
      simp only [updateBest, if_true, Option.some.injEq, Prod.mk.injEq] at h
      rw [← h.1]
      exact hs rfl
    | some pr =>
      rw [hbe] at h
      simp only [updateBest, if_true] at h
      split at h
      · simp only [Option.some.injEq, Prod.mk.injEq] at h
        rw [← h.1]
        exact hs rfl
      · simp only [Option.some.injEq] at h
        exact hb b i (by rw [hbe, h])

theorem updateBest_ge_score (best : Option (ℚ × Ind)) (s : ℚ) (ind : Ind) :
    ∃ b1 i1, updateBest best true s ind = some (b1, i1) ∧ s ≤ b1 := by
  cases best with
  | none => exact ⟨s, ind, by simp [updateBest], le_refl s⟩
  | some pr =>
    by_cases hlt : pr.1 < s
    · exact ⟨s, ind, by simp [updateBest, hlt], le_refl s⟩
    · exact ⟨pr.1, pr.2, by simp [updateBest, hlt], le_of_not_lt hlt⟩

theorem foldEval_length (simulate : Ind → Except String BResult) :
    ∀ (l : List Ind) (best : Option (ℚ × Ind)),
      (foldEval simulate l best).1.length = l.length := by
  intro l
  induction l with
  | nil => intro best; rfl
  | cons ind rest ih => intro best; simp [foldEval, ih]

theorem foldEval_best_mono (simulate : Ind → Except String BResult) :
    ∀ (l : List Ind) (best : Option (ℚ × Ind)) (b : ℚ) (i : Ind), best = some (b, i) →
      ∃ b2 i2, (foldEval simulate l best).2 = some (b2, i2) ∧ b ≤ b2 := by
  intro l
  induction l with
  | nil => intro best b i h; exact ⟨b, i, by simp [foldEval, h], le_refl b⟩
  | cons ind rest ih =>
    intro best b i h
    obtain ⟨b1, i1, h1, hle1⟩ := updateBest_mono best (evalOutcome (simulate ind)).2
      (evalOutcome (simulate ind)).1 ind b i h
    obtain ⟨b2, i2, h2, hle2⟩ := ih _ b1 i1 h1
    exact ⟨b2, i2, by simpa [foldEval] using h2, le_trans hle1 hle2⟩

theorem foldEval_best_lb (simulate : Ind → Except String BResult)
    (hsim : ∀ ind : Ind, (evalOutcome (simulate ind)).2 = true →
      -10000 ≤ (evalOutcome (simulate ind)).1) :
    ∀ (l : List Ind) (best : Option (ℚ × Ind)),
      (∀ b i, best = some (b, i) → -10000 ≤ b) →
      ∀ b i, (foldEval simulate l best).2 = some (b, i) → -10000 ≤ b := by
  intro l
  induction l with
  | nil => intro best hb b i h; exact hb b i (by simpa [foldEval] using h)
  | cons ind rest ih =>
    intro best hb b i h
    have hb1 := updateBest_lb best (evalOutcome (simulate ind)).2
      (evalOutcome (simulate ind)).1 ind hb (hsim ind)
    exact ih _ hb1 b i (by simpa [foldEval] using h)

theorem foldEval_scores (simulate : Ind → Except String BResult)
    (hsim : ∀ ind : Ind, (evalOutcome (simulate ind)).2 = true →
      -10000 ≤ (evalOutcome (simulate ind)).1) :
    ∀ (l : List Ind) (best : Option (ℚ × Ind)),
      (∀ b i, best = some (b, i) → -10000 ≤ b) →
      ∀ pr ∈ (foldEval simulate l best).1, pr.2 = -10000 ∨
        ∃ b i, (foldEval simulate l best).2 = some (b, i) ∧ pr.2 ≤ b := by
  intro l
  induction l with
  | nil => intro best hb pr hpr; simp [foldEval] at hpr
  | cons ind rest ih =>
    intro best hb pr hpr
    simp only [foldEval, List.mem_cons] at hpr
    rcases hpr with hpr1 | hpr2
    · subst hpr1
      cases hcompl : (evalOutcome (simulate ind)).2 with
      | false =>
        left
        exact evalOutcome_incomplete _ hcompl
      | true =>
        right
        obtain ⟨b1, i1, h1, hs1⟩ := updateBest_ge_score best (evalOutcome (simulate ind)).1 ind
        have h1a : updateBest best (evalOutcome (simulate ind)).2
            (evalOutcome (simulate ind)).1 ind = some (b1, i1) := by
          rw [hcompl]
          exact h1
        obtain ⟨b2, i2, h2, hb2⟩ := foldEval_best_mono simulate rest _ b1 i1 h1a
        refine ⟨b2, i2, by simpa [foldEval] using h2, le_trans hs1 hb2⟩
    · have hb1 := updateBest_lb best (evalOutcome (simulate ind)).2
        (evalOutcome (simulate ind)).1 ind hb (hsim ind)
      rcases ih _ hb1 pr hpr2 with h2 | ⟨b, i, h3, h4⟩
      · exact Or.inl h2
      · exact Or.inr ⟨b, i, by simpa [foldEval] using h3, h4⟩

theorem length_insertDesc (x : Ind × ℚ) :
    ∀ (l : List (Ind × ℚ)), (insertDesc x l).length = l.length + 1 := by
  intro l
  induction l with
  | nil => rfl
  | cons y ys ih =>
    unfold insertDesc
    split
    · simp
    · simp [ih]

theorem length_sortDesc (l : List (Ind × ℚ)) : (sortDesc l).length = l.length := by
  induction l with
  | nil => rfl
  | cons y ys ih =>
    rw [show sortDesc (y :: ys) = insertDesc y (sortDesc ys) from rfl, length_insertDesc, ih]
    rfl

theorem mem_insertDesc (x a : Ind × ℚ) :
    ∀ (l : List (Ind × ℚ)), (a ∈ insertDesc x l ↔ a = x ∨ a ∈ l) := by
  intro l
  induction l with
  | nil => simp [insertDesc]
  | cons y ys ih =>
    unfold insertDesc
    split
    · simp [List.mem_cons]
    · simp only [List.mem_cons, ih]
      tauto

theorem mem_sortDesc (a : Ind × ℚ) (l : List (Ind × ℚ)) : a ∈ sortDesc l ↔ a ∈ l := by
  induction l with
  | nil => simp [sortDesc]
  | cons y ys ih =>
    rw [show sortDesc (y :: ys) = insertDesc y (sortDesc ys) from rfl, mem_insertDesc]
    simp [ih]

theorem genPop_length (rng : ℕ → ℚ) (space : List PRange) :
    ∀ (n k : ℕ), (genPop rng space n k).1.length = n := by
  intro n
  induction n with
  | zero => intro k; rfl
  | succ m ih => intro k; simp [genPop, ih]

theorem pickParent_nil (rng : ℕ → ℚ) (k : ℕ) : (pickParent rng [] k).1 = none := by
  unfold pickParent
  dsimp only
  split <;> rfl

theorem crossChild_none_err (rng : ℕ → ℚ) (m j k : ℕ) :
    crossChild rng none none (m + 1) j k =
      .error "TypeError: Cannot read properties of undefined" := by
  simp only [crossChild, ite_self]

theorem makeOffspring_nil_err (rng : ℕ → ℚ) (m n k : ℕ) :
    makeOffspring rng [] (m + 1) (n + 1) k =
      .error "TypeError: Cannot read properties of undefined" := by
  simp only [makeOffspring]
  rw [pickParent_nil, pickParent_nil, crossChild_none_err]

theorem nextPopulation_nil_err (rng : ℕ → ℚ) (space : List PRange) (popSize k : ℕ)
    (hsp : space ≠ []) (hp : 1 ≤ popSize) :
    nextPopulation rng space popSize [] k =
      .error "TypeError: Cannot read properties of undefined" := by
  obtain ⟨m, hm⟩ : ∃ m, space.length = m + 1 :=
    ⟨space.length - 1, by have := List.length_pos.mpr hsp; omega⟩
  obtain ⟨n, hn⟩ : ∃ n, popSize = n + 1 := ⟨popSize - 1, by omega⟩
  unfold nextPopulation
  rw [show (([] : List Ind)).length = 0 from rfl, Nat.sub_zero, hm, hn, makeOffspring_nil_err]

theorem mutateAll_spared (rng : ℕ → ℚ) (space : List PRange) :
    ∀ (pre rest : List Ind) (k : ℕ), (∀ i < pre.length, 1/10 < rng (k + i)) →
      mutateAll rng space (pre ++ rest) k =
        match mutateAll rng space rest (k + pre.length) with
        | .error e => .error e
        | .ok r => .ok (pre ++ r.1, r.2) := by
  intro pre
  induction pre with
  | nil =>
    intro rest k h
    simp only [List.nil_append, List.length_nil, Nat.add_zero]
    cases hma : mutateAll rng space rest k with
    | error e => rfl
    | ok r => rfl
  | cons x xs ih =>
    intro rest k h
    have hx : 1/10 < rng k := by simpa using h 0 (Nat.succ_pos _)
    have hm1 : mutateOne rng space x k = .ok (x, k + 1) := by
      unfold mutateOne
      rw [if_pos hx]
    simp only [List.cons_append, mutateAll, hm1, List.append_eq]
    rw [ih rest (k + 1) (fun i hi => by
      have h2 := h (i + 1) (by simpa using Nat.succ_lt_succ hi)
      have h3 : k + (i + 1) = k + 1 + i := by omega
      rwa [h3] at h2)]
    have hk : k + 1 + xs.length = k + (x :: xs).length := by
      simp [List.length_cons]
      omega
    rw [hk]
    cases mutateAll rng space rest (k + (x :: xs).length) with
    | error e => rfl
    | ok r => rfl

theorem optLoop_inv (simulate : Ind → Except String BResult) (rng : ℕ → ℚ)
    (space : List PRange) (popSize : ℕ)
    (hsim : ∀ ind : Ind, (evalOutcome (simulate ind)).2 = true →
      -10000 ≤ (evalOutcome (simulate ind)).1) :
    ∀ (g gi : ℕ) (pop : List Ind) (best : Option (ℚ × Ind)) (stats : List GenStat) (k : ℕ)
      (out : Option (ℚ × Ind) × List GenStat),
      optLoop simulate rng space popSize g gi pop best stats k = .ok out →
      (∀ b i, best = some (b, i) → -10000 ≤ b) →
      (∀ st ∈ stats, st.bestScore = -10000 ∨
        ∃ b i, best = some (b, i) ∧ st.bestScore ≤ b) →
      (∀ b i, out.1 = some (b, i) → -10000 ≤ b) ∧
      (∀ st ∈ out.2, st.bestScore = -10000 ∨
        ∃ b i, out.1 = some (b, i) ∧ st.bestScore ≤ b) := by
  intro g
  induction g with
  | zero =>
    intro gi pop best stats k out hok hb hstats
    simp only [optLoop, Except.ok.injEq] at hok
    subst hok
    exact ⟨hb, hstats⟩
  | succ g ih =>
    intro gi pop best stats k out hok hb hstats
    simp only [optLoop] at hok
    cases hsd : sortDesc (foldEval simulate pop best).1 with
    | nil =>
      rw [hsd] at hok
      exact Except.noConfusion hok
    | cons top rest =>
      rw [hsd] at hok
      dsimp only at hok
      cases hnp : nextPopulation rng space popSize
          (((top :: rest).take (popSize / 5)).map (fun pr => pr.1)) k with
      | error e =>
        rw [hnp] at hok
        exact Except.noConfusion hok
      | ok np =>
        rw [hnp] at hok
        refine ih (gi + 1) np.1 _ _ np.2 out hok
          (foldEval_best_lb simulate hsim pop best hb) ?_
        intro st hst
        rcases List.mem_append.mp hst with h1 | h1
        · rcases hstats st h1 with h2 | ⟨b, i, hbe, hle⟩
          · exact Or.inl h2
          · obtain ⟨b2, i2, h3, h4⟩ := foldEval_best_mono simulate pop best b i hbe
            exact Or.inr ⟨b2, i2, h3, le_trans hle h4⟩
        · rcases List.mem_singleton.mp h1 with rfl
          have htop : top ∈ (foldEval simulate pop best).1 := by
            have hmem : top ∈ sortDesc (foldEval simulate pop best).1 := by
              rw [hsd]; simp
            exact (mem_sortDesc top _).mp hmem
          rcases foldEval_scores simulate hsim pop best hb top htop with h2 | ⟨b, i, h3, h4⟩
          · exact Or.inl h2
          · exact Or.inr ⟨b, i, h3, h4⟩

theorem optLoop_reproduction_err (simulate : Ind → Except String BResult) (rng : ℕ → ℚ)
    (space : List PRange) (popSize : ℕ)
    (h1 : 1 ≤ popSize) (h2 : popSize ≤ 4) (h3 : space ≠ []) :
    ∀ (g gi : ℕ) (pop : List Ind) (best : Option (ℚ × Ind)) (stats : List GenStat) (k : ℕ),
      pop.length = popSize →
      optLoop simulate rng space popSize (g + 1) gi pop best stats k =
        .error "TypeError: Cannot read properties of undefined" := by
  intro g gi pop best stats k hlen
  have hsl : (sortDesc (foldEval simulate pop best).1).length = popSize := by
    rw [length_sortDesc, foldEval_length]
    exact hlen
  obtain ⟨top, rest, hsd⟩ :
      ∃ top rest, sortDesc (foldEval simulate pop best).1 = top :: rest := by
    cases hx : sortDesc (foldEval simulate pop best).1 with
    | nil => rw [hx] at hsl; simp at hsl; omega
    | cons a l => exact ⟨a, l, rfl⟩
  have hdiv : popSize / 5 = 0 := Nat.div_eq_of_lt (by omega)
  simp only [optLoop]
  rw [hsd]
  dsimp only
  rw [hdiv]
  simp only [List.take_zero, List.map_nil]
  rw [nextPopulation_nil_err rng space popSize k h3 h1]

/-! ## Claim theorems: the genetic parameter search -/

/-- C10: with 1 ≤ populationSize ≤ 4 (so zero survivors), a non-empty
parameter space, at least one generation and non-empty data, `optimize`
throws a `TypeError` during reproduction (reading a parameter off an
undefined parent drawn from the empty survivor list) instead of returning
a result. -/
theorem c10_reproduction_error (popSize gens : ℕ) (space : List PRange) (bars : List Bar)
    (strat : Ind → List Bar → List Bar) (rng : ℕ → ℚ)
    (h1 : 1 ≤ popSize) (h2 : popSize ≤ 4) (h3 : space ≠ []) (h4 : 1 ≤ gens)
    (h5 : bars ≠ []) :
    optimize popSize gens space bars strat rng =
      .error "TypeError: Cannot read properties of undefined" := by
  obtain ⟨g, rfl⟩ : ∃ g, gens = g + 1 := ⟨gens - 1, by omega⟩
  have hne : bars.isEmpty = false := by
    cases bars with
    | nil => exact absurd rfl h5
    | cons b bs => rfl
  unfold optimize
  rw [hne]
  simp only [Bool.false_eq_true, if_false]
  rw [optLoop_reproduction_err (fun ind => runB 10000 (strat ind) bars) rng space popSize
    h1 h2 h3 g 0 (genPop rng space popSize 0).1 none [] (genPop rng space popSize 0).2
    (genPop_length rng space popSize 0)]

/-- C10 witness: a concrete one-individual, one-generation search on one
bar errors out. -/
theorem c10_witness :
    optimize 1 1 oneParamSpace [warmBar] (fun _ l => l) (fun _ => 0) =
      .error "TypeError: Cannot read properties of undefined" :=
  c10_reproduction_error 1 1 oneParamSpace [warmBar] (fun _ l => l) (fun _ => 0)
    (le_refl 1) (by norm_num) (by simp [oneParamSpace]) (le_refl 1) (by simp)

/-- C5 counterexample: one survivor `[0]` out of a population of five; the
random stream mutates every individual of the refilled population, so the
next generation contains no copy of the top-fitness individual's parameter
values. -/
theorem c5_counterexample :
    (nextPopulation c5rng oneParamSpace 5 [[0]] 0).toOption =
      some ([[5], [5], [5], [5], [5]], 27) ∧
    [(0 : ℚ)] ∉ [[(5 : ℚ)], [5], [5], [5], [5]] := by
  norm_num [nextPopulation, makeOffspring, mutateAll, mutateOne, pickParent, crossChild,
    drawParam, jround, c5rng, oneParamSpace, Except.toOption]

/-- C5 amended: the top `floor(populationSize * 0.2)` individuals are
carried unmodified to the head of the next generation's population only
when the 10% per-individual mutation pass spares each of them (their
mutation rolls all exceed 0.1); mutation is applied to the whole refilled
population, survivors included. -/
theorem c5_survivors_kept_if_spared (rng : ℕ → ℚ) (space : List PRange) (popSize : ℕ)
    (survivors : List Ind) (k k1 k2 : ℕ) (off pop : List Ind)
    (hmo : makeOffspring rng survivors space.length (popSize - survivors.length) k =
      .ok (off, k1))
    (hroll : ∀ i < survivors.length, 1/10 < rng (k1 + i))
    (hnp : nextPopulation rng space popSize survivors k = .ok (pop, k2)) :
    pop.take survivors.length = survivors := by
  unfold nextPopulation at hnp
  rw [hmo] at hnp
  dsimp only at hnp
  rw [mutateAll_spared rng space survivors off k1 hroll] at hnp
  cases hma : mutateAll rng space off (k1 + survivors.length) with
  | error e =>
    rw [hma] at hnp
    exact Except.noConfusion hnp
  | ok r =>
    rw [hma] at hnp
    simp only [Except.ok.injEq, Prod.mk.injEq] at hnp
    rw [← hnp.1]
    exact List.take_left survivors r.1

/-- C5 witness: with every mutation roll at 0.5 > 0.1 the single survivor
`[0]` is kept unmodified at the head of the next population. -/
theorem c5_witness :
    ([[(0 : ℚ)], [0], [0], [0], [0]] : List Ind).take
      ([[(0 : ℚ)]] : List Ind).length = [[(0 : ℚ)]] :=
  c5_survivors_kept_if_spared (fun _ => 1/2) oneParamSpace 5 [[0]] 0 12 17
    [[0], [0], [0], [0]] [[0], [0], [0], [0], [0]]
    (by norm_num [makeOffspring, pickParent, crossChild, oneParamSpace])
    (by intro i hi; norm_num)
    (by norm_num [nextPopulation, makeOffspring, mutateAll, mutateOne, pickParent,
      crossChild, drawParam, jround, oneParamSpace])

/-- C6 counterexample: ten bars inside the warm-up make every individual's
fitness computation throw at the empty equity curve; the run completes and
returns `bestScore = undefined` (`none`) although every individual was
assigned fitness -10000 (visible as the generation's best score), so the
returned bestScore is not ≥ those fitnesses. -/
theorem c6_counterexample :
    (optimize 5 1 oneParamSpace c6bars (fun _ l => l) (fun _ => 0)).toOption =
      some ⟨none, none, [⟨1, -10000, -10000⟩]⟩ := by
  norm_num [optimize, optLoop, genPop, genInd, drawParam, jround, foldEval, updateBest,
    evalOutcome, runB, stepBar, markEquity, buyAct, sellAct, equityAt, peakAt, ddAt,
    forceClose, sortDesc, insertDesc, nextPopulation, makeOffspring, mutateAll, mutateOne,
    pickParent, crossChild, c6bars, oneParamSpace, warmBar, List.replicate,
    Except.toOption, pnlPos, pnlNeg, List.filter]

/-- C6 amended: whenever `optimize` returns with `bestScore = some s` (at
least one evaluation completed) and every bar the strategy produces has a
nonnegative close, `s` is at least -10000 — the fitness assigned to every
thrown evaluation — and at least every generation's recorded best score,
which by construction is the maximum fitness assigned in that generation;
when no evaluation completes, `bestScore` is `undefined`. -/
theorem c6_best_score_bound (popSize gens : ℕ) (space : List PRange) (bars : List Bar)
    (strat : Ind → List Bar → List Bar) (rng : ℕ → ℚ) (res : SearchRes) (s : ℚ)
    (hclose : ∀ (ind : Ind), ∀ b ∈ strat ind bars, 0 ≤ b.close)
    (hok : optimize popSize gens space bars strat rng = .ok res)
    (hs : res.bestScore = some s) :
    -10000 ≤ s ∧ ∀ st ∈ res.evolution, st.bestScore ≤ s := by
  unfold optimize at hok
  split at hok
  · exact Except.noConfusion hok
  · dsimp only at hok
    cases hol : optLoop (fun ind => runB 10000 (strat ind) bars) rng space popSize gens 0
        (genPop rng space popSize 0).1 none [] (genPop rng space popSize 0).2 with
    | error e =>
      rw [hol] at hok
      exact Except.noConfusion hok
    | ok r =>
      rw [hol] at hok
      simp only [Except.ok.injEq] at hok
      subst hok
      obtain ⟨pr, hpr, hprs⟩ := Option.map_eq_some'.mp hs
      obtain ⟨hlb, hstats⟩ := optLoop_inv (fun ind => runB 10000 (strat ind) bars) rng space
        popSize (fun ind hc2 => scoreOf_completed_ge (strat ind) bars (hclose ind) hc2)
        gens 0 (genPop rng space popSize 0).1 none [] (genPop rng space popSize 0).2 r hol
        (fun b i h => Option.noConfusion h) (fun st hst => absurd hst (List.not_mem_nil st))
      have hbs : -10000 ≤ s := by
        rw [← hprs]
        exact hlb pr.1 pr.2 (by rw [hpr])
      refine ⟨hbs, ?_⟩
      intro st hst
      rcases hstats st hst with h1 | ⟨b, i, hbe, hle⟩
      · rw [h1]
        exact hbs
      · rw [hpr] at hbe
        simp only [Option.some.injEq] at hbe
        have hb1 : b = s := by
          rw [← hprs, hbe]
        exact le_of_le_of_eq hle hb1

/-- C6 witness: a five-individual, one-generation search over 51
signal-free bars completes every evaluation with fitness -5000, returns
bestScore -5000, and the bound holds. -/
theorem c6_witness :
    -10000 ≤ (-5000 : ℚ) ∧
    ∀ st ∈ ([⟨1, -5000, -5000⟩] : List GenStat), st.bestScore ≤ (-5000 : ℚ) :=
  c6_best_score_bound 5 1 oneParamSpace bars51 (fun _ l => l) (fun _ => 0)
    ⟨some [0], some (-5000), [⟨1, -5000, -5000⟩]⟩ (-5000)
    (fun _ b hb => by
      have hbw : b = warmBar := by simpa [bars51, List.mem_replicate] using hb
      rw [hbw]
      norm_num [warmBar])
    (by norm_num [optimize, optLoop, genPop, genInd, drawParam, jround, foldEval, updateBest,
      evalOutcome, runB, stepBar, markEquity, buyAct, sellAct, equityAt, peakAt, ddAt,
      forceClose, sortDesc, insertDesc, nextPopulation, makeOffspring, mutateAll, mutateOne,
      pickParent, crossChild, bars51, oneParamSpace, warmBar, List.replicate,
      Except.toOption, pnlPos, pnlNeg, List.filter])
    rfl

end BobTrader
